import Mathlib

/-!
Verification development for the ConvNeXt/InceptionNeXt model file
(models/convnext.py).  The network code is embedded shallowly:

* a 4-D tensor is a `Tensor4`: four extents plus a total data function on
  indices (only values at indices below the extents are meaningful);
* tensor values are rationals; the transcendental activations (GELU,
  sigmoid) and the square root are abstract parameters (`ActFns`), since
  none of the verified properties depends on their values;
* modules (`nn.Conv2d`, `PartialConv2d`, the blocks, the backbone) become
  structures built by explicit constructor functions; parameter tensors
  have their torch shapes, with arbitrary values supplied through an
  initialisation function (torch draws them randomly);
* fallible torch operations (shape checks of conv / cat / split /
  layer_norm, assert statements, list indexing) return `Except String`.
-/

/-- A 4-D tensor: extents `s0 s1 s2 s3` and a data function; entries at
indices below the extents are the tensor's values. -/
structure Tensor4 where
  s0 : ℕ
  s1 : ℕ
  s2 : ℕ
  s3 : ℕ
  data : ℕ → ℕ → ℕ → ℕ → ℚ

/-- Broadcast index: an extent-1 axis is read at index 0 (torch/NumPy
broadcasting). -/
def bIdx (s i : ℕ) : ℕ := if s = 1 then 0 else i

/-- Pointwise binary operation with 4-D broadcasting (all uses in the
embedded code have compatible shapes, so the `max` extent is the torch
result extent). -/
def tbin (f : ℚ → ℚ → ℚ) (a b : Tensor4) : Tensor4 :=
  { s0 := max a.s0 b.s0
    s1 := max a.s1 b.s1
    s2 := max a.s2 b.s2
    s3 := max a.s3 b.s3
    data := fun n c h w =>
      f (a.data (bIdx a.s0 n) (bIdx a.s1 c) (bIdx a.s2 h) (bIdx a.s3 w))
        (b.data (bIdx b.s0 n) (bIdx b.s1 c) (bIdx b.s2 h) (bIdx b.s3 w)) }

/-- Pointwise unary operation. -/
def tmap (f : ℚ → ℚ) (a : Tensor4) : Tensor4 :=
  { a with data := fun n c h w => f (a.data n c h w) }

/-- Mean over axis 1 with keepdim=True (`x.mean(1, keepdim=True)`). -/
def mean1 (x : Tensor4) : Tensor4 :=
  { s0 := x.s0, s1 := 1, s2 := x.s2, s3 := x.s3
    data := fun n _ h w => (∑ i ∈ Finset.range x.s1, x.data n i h w) / (x.s1 : ℚ) }

/-- A contiguous slice of `len` channels starting at `start` (axis 1). -/
def tslice (start len : ℕ) (x : Tensor4) : Tensor4 :=
  { s0 := x.s0, s1 := len, s2 := x.s2, s3 := x.s3
    data := fun n c h w => x.data n (start + c) h w }

/-- Concatenation of two tensors along axis 1 (data level). -/
def cat2 (a b : Tensor4) : Tensor4 :=
  { s0 := a.s0, s1 := a.s1 + b.s1, s2 := a.s2, s3 := a.s3
    data := fun n c h w =>
      if c < a.s1 then a.data n c h w else b.data n (c - a.s1) h w }

/-- torch.cat along dim=1: all other extents must match (torch checks this
for every operand, zero-sized channel axes included). -/
def cat2E (a b : Tensor4) : Except String Tensor4 :=
  if a.s0 = b.s0 ∧ a.s2 = b.s2 ∧ a.s3 = b.s3 then .ok (cat2 a b)
  else .error "Sizes of tensors must match except in dimension 1"

/-- permute(0, 2, 3, 1): NCHW to NHWC. -/
def permute0231 (x : Tensor4) : Tensor4 :=
  { s0 := x.s0, s1 := x.s2, s2 := x.s3, s3 := x.s1
    data := fun n h w c => x.data n c h w }

/-- permute(0, 3, 1, 2): NHWC back to NCHW. -/
def permute0312 (x : Tensor4) : Tensor4 :=
  { s0 := x.s0, s1 := x.s3, s2 := x.s1, s3 := x.s2
    data := fun n c h w => x.data n h w c }

/-- Zero-padded read of a spatial position (integer coordinates; outside
the tensor the value is 0, as under torch zero padding). -/
def padGet (x : Tensor4) (n c : ℕ) (i j : ℤ) : ℚ :=
  if 0 ≤ i ∧ i < (x.s2 : ℤ) ∧ 0 ≤ j ∧ j < (x.s3 : ℤ) then
    x.data n c i.toNat j.toNat
  else 0

/-- An `nn.Conv2d` module: hyper-parameters plus its weight
(out-channel, in-channel-per-group, kh, kw) and bias functions. -/
structure Conv2dM where
  inC : ℕ
  outC : ℕ
  kH : ℕ
  kW : ℕ
  sH : ℕ
  sW : ℕ
  pH : ℕ
  pW : ℕ
  dH : ℕ
  dW : ℕ
  gps : ℕ
  weight : ℕ → ℕ → ℕ → ℕ → ℚ
  bias : ℕ → ℚ

/-- Output spatial extent of a convolution axis. -/
def convOutDim (size k s p d : ℕ) : ℕ := (size + 2 * p - d * (k - 1) - 1) / s + 1

/-- The grouped 2-D cross-correlation nn.Conv2d computes (with bias). -/
def convApply (m : Conv2dM) (x : Tensor4) : Tensor4 :=
  { s0 := x.s0
    s1 := m.outC
    s2 := convOutDim x.s2 m.kH m.sH m.pH m.dH
    s3 := convOutDim x.s3 m.kW m.sW m.pW m.dW
    data := fun n o h w =>
      m.bias o +
        ∑ c ∈ Finset.range (m.inC / m.gps), ∑ i ∈ Finset.range m.kH,
          ∑ j ∈ Finset.range m.kW,
            m.weight o c i j *
              padGet x n (o / (m.outC / m.gps) * (m.inC / m.gps) + c)
                ((h * m.sH + i * m.dH : ℤ) - (m.pH : ℤ))
                ((w * m.sW + j * m.dW : ℤ) - (m.pW : ℤ)) }

/-- nn.Conv2d forward: the input must carry `inC` channels and the output
spatial extents must be positive, else torch raises. -/
def conv2dE (m : Conv2dM) (x : Tensor4) : Except String Tensor4 :=
  if x.s1 = m.inC then
    if m.dH * (m.kH - 1) + 1 ≤ x.s2 + 2 * m.pH ∧
        m.dW * (m.kW - 1) + 1 ≤ x.s3 + 2 * m.pW then
      .ok (convApply m x)
    else .error "Calculated output size would be non-positive"
  else .error "input channel count does not match conv in_channels"

/-- True exactly on `Except.error` (the embedded run raised). -/
def exErr {α : Type} : Except String α → Bool
  | .error _ => true
  | .ok _ => false

/-- Abstract scalar activations: GELU and sigmoid, and the square root the
normalisations use.  The verified properties hold for any choice. -/
structure ActFns where
  gelu : ℚ → ℚ
  sigmoid : ℚ → ℚ
  sqrtFn : ℚ → ℚ

/-- nn.Linear acting on the last axis: `y = x Wᵀ + b`, with `W : outF × inF`.
torch checks the last extent against in_features. -/
def linearE (w : ℕ → ℕ → ℚ) (b : ℕ → ℚ) (inF outF : ℕ) (x : Tensor4) :
    Except String Tensor4 :=
  if x.s3 = inF then
    .ok { s0 := x.s0, s1 := x.s1, s2 := x.s2, s3 := outF
          data := fun n a c o =>
            b o + ∑ j ∈ Finset.range inF, w o j * x.data n a c j }
  else .error "linear in_features does not match the last axis"

/-- F.layer_norm with normalized_shape = (C,): normalise over the last axis;
the last extent must equal C. -/
def layerNormLast1E (w b : ℕ → ℚ) (C : ℕ) (sqrtFn : ℚ → ℚ) (eps : ℚ)
    (x : Tensor4) : Except String Tensor4 :=
  if x.s3 = C then
    .ok { s0 := x.s0, s1 := x.s1, s2 := x.s2, s3 := x.s3
          data := fun n a c i =>
            let u : ℚ := (∑ j ∈ Finset.range C, x.data n a c j) / (C : ℚ)
            let s : ℚ :=
              (∑ j ∈ Finset.range C, (x.data n a c j - u) ^ 2) / (C : ℚ)
            w i * ((x.data n a c i - u) / sqrtFn (s + eps)) + b i }
  else .error "layer_norm normalized_shape does not match the last axis"

/-- F.layer_norm with normalized_shape = (C, 1, 1) (the attention branch's
nn.LayerNorm([dim // 8, 1, 1])): the last three extents must be exactly
(C, 1, 1); normalisation is then over the channel axis per sample.  The
affine weight and bias have shape (C, 1, 1), read here by channel. -/
def layerNormLast3E (w b : ℕ → ℚ) (C : ℕ) (sqrtFn : ℚ → ℚ) (eps : ℚ)
    (x : Tensor4) : Except String Tensor4 :=
  if x.s1 = C ∧ x.s2 = 1 ∧ x.s3 = 1 then
    .ok { s0 := x.s0, s1 := x.s1, s2 := x.s2, s3 := x.s3
          data := fun n c h v =>
            let u : ℚ := (∑ j ∈ Finset.range C, x.data n j 0 0) / (C : ℚ)
            let s : ℚ :=
              (∑ j ∈ Finset.range C, (x.data n j 0 0 - u) ^ 2) / (C : ℚ)
            w c * ((x.data n c h v - u) / sqrtFn (s + eps)) + b c }
  else .error "layer_norm normalized_shape does not match the last axes"

/-- The custom LayerNorm's channels_first branch (convnext.py lines
279-283), composed from the tensor operations the source uses:
`u = x.mean(1, keepdim=True)`, `s = (x - u).pow(2).mean(1, keepdim=True)`,
`x = (x - u) / torch.sqrt(s + eps)`,
`x = weight[:, None, None] * x + bias[:, None, None]`. -/
def layerNormCF (C : ℕ) (w b : ℕ → ℚ) (eps : ℚ) (sqrtFn : ℚ → ℚ)
    (x : Tensor4) : Tensor4 :=
  let u := mean1 x
  let s := mean1 (tmap (fun v => v ^ 2) (tbin (fun p q => p - q) x u))
  let xn := tbin (fun p q => p / q) (tbin (fun p q => p - q) x u)
    (tmap sqrtFn (tmap (fun v => v + eps) s))
  let wt : Tensor4 := { s0 := 1, s1 := C, s2 := 1, s3 := 1
                        data := fun _ c _ _ => w c }
  let bt : Tensor4 := { s0 := 1, s1 := C, s2 := 1, s3 := 1
                        data := fun _ c _ _ => b c }
  tbin (fun p q => p + q) (tbin (fun p q => p * q) wt xn) bt

/-- Modelled from the spec: timm's DropPath, whose code is not part of this
repository.  In training mode the residual branch is kept (scaled by
1/keep_prob) or zeroed according to the per-sample coin; the spec states
that during inference mode it is always the identity (full branch always
kept, no rescaling). -/
def dropPathF (p : ℚ) (training coin : Bool) (x : Tensor4) : Tensor4 :=
  match training with
  | false => x
  | true => if coin then tmap (fun v => v / (1 - p)) x else tmap (fun _ => 0) x

/-- The blocks' stochastic-depth step: `DropPath(p)` when the constructor
rate is positive, else `nn.Identity()` (convnext.py lines 92 and 159). -/
def dropStep (p : ℚ) (training coin : Bool) (x : Tensor4) : Tensor4 :=
  if 0 < p then dropPathF p training coin x else x

/-- Elementwise product of a per-channel vector against the last axis
(`gamma * x` with gamma of shape (dim,) and x in NHWC layout). -/
def mulVecLast (g : List ℚ) (x : Tensor4) : Tensor4 :=
  { x with data := fun n a c i => g.getD i 0 * x.data n a c i }

/-- The blocks' `if self.gamma is not None: x = self.gamma * x`. -/
def applyGamma : Option (List ℚ) → Tensor4 → Tensor4
  | none, x => x
  | some g, x => mulVecLast g x

/-- The gamma parameter both block constructors build:
`layer_scale_init_value * torch.ones((dim))` when the init value is
positive, else None. -/
def mkGamma (dim : ℕ) (v : ℚ) : Option (List ℚ) :=
  if 0 < v then some ((List.replicate dim (1 : ℚ)).map (fun o => v * o)) else none

/-- Python's `int(n * ratio)`: truncation toward zero of the value
n * ratio, computed on the rational's components (the value of `n * r` is
the fraction `(n * r.num) / r.den`, and `Int.tdiv` is toward-zero
division, which is what Python's int() applies). -/
def ratioFloor (n : ℕ) (r : ℚ) : ℕ := (((n : ℤ) * r.num).tdiv (r.den : ℤ)).toNat

/-- The PartialConv2d module: the inner conv over the trailing channels and
the split sizes (identity slice, convolved slice). -/
structure PartialConv2d where
  conv : Conv2dM
  splitA : ℕ
  splitB : ℕ

/-- PartialConv2d.__init__: `in_chs = int(in_channels * conv_ratio)`,
`out_chs = int(out_channels * conv_ratio)`,
`gps = int(groups * conv_ratio) or 1`, inner nn.Conv2d on those counts,
`split_indices = (in_channels - in_chs, in_chs)`. -/
def pconvInit (inCh outCh kH kW sH sW pH pW dH dW g : ℕ) (r : ℚ)
    (wf : ℕ → ℕ → ℕ → ℕ → ℚ) (bf : ℕ → ℚ) : PartialConv2d :=
  let inChs := ratioFloor inCh r
  let outChs := ratioFloor outCh r
  let g0 := ratioFloor g r
  { conv := { inC := inChs, outC := outChs, kH := kH, kW := kW
              sH := sH, sW := sW, pH := pH, pW := pW, dH := dH, dW := dW
              gps := if g0 = 0 then 1 else g0, weight := wf, bias := bf }
    splitA := inCh - inChs
    splitB := inChs }

/-- PartialConv2d.forward: `torch.split(x, split_indices, dim=1)` (the
sizes must sum to the channel extent), the inner conv on the trailing
slice, then `torch.cat((identity, conv_result), dim=1)`. -/
def pconvForwardE (m : PartialConv2d) (x : Tensor4) : Except String Tensor4 :=
  if x.s1 = m.splitA + m.splitB then
    match conv2dE m.conv (tslice m.splitA m.splitB x) with
    | .error e => .error e
    | .ok y => cat2E (tslice 0 m.splitA x) y
  else .error "split sizes do not sum to the channel extent"

/-- Which convolution constructor a block receives as conv_fn: nn.Conv2d
itself, or functools.partial of PartialConv2d at a fixed conv_ratio. -/
inductive ConvFn : Type
  | std : ConvFn
  | par : ℚ → ConvFn

/-- A constructed conv_fn module. -/
inductive BranchM : Type
  | std : Conv2dM → BranchM
  | par : PartialConv2d → BranchM

/-- Build a conv_fn module: `conv_fn(cin, cout, kernel_size, padding,
groups)` (stride and dilation at their defaults). -/
def mkBranch (fn : ConvFn) (cin cout kH kW pH pW g : ℕ)
    (wf : ℕ → ℕ → ℕ → ℕ → ℚ) (bf : ℕ → ℚ) : BranchM :=
  match fn with
  | .std => .std { inC := cin, outC := cout, kH := kH, kW := kW
                   sH := 1, sW := 1, pH := pH, pW := pW, dH := 1, dW := 1
                   gps := g, weight := wf, bias := bf }
  | .par r => .par (pconvInit cin cout kH kW 1 1 pH pW 1 1 g r wf bf)

/-- Forward through a conv_fn module. -/
def branchForwardE (b : BranchM) (x : Tensor4) : Except String Tensor4 :=
  match b with
  | .std m => conv2dE m x
  | .par m => pconvForwardE m x

/-- Helper: an nn.Conv2d module with stride/padding given and dilation 1. -/
def mkConv2d (cin cout kH kW sH sW pH pW g : ℕ)
    (wf : ℕ → ℕ → ℕ → ℕ → ℚ) (bf : ℕ → ℚ) : Conv2dM :=
  { inC := cin, outC := cout, kH := kH, kW := kW, sH := sH, sW := sW
    pH := pH, pW := pW, dH := 1, dW := 1, gps := g, weight := wf, bias := bf }

/-- The MSCA block: three depthwise conv branches (3x3, 1x11, 11x1) plus an
identity branch, the spatial attention Sequential, the channel-fusion conv,
the LayerNorm / Linear MLP and the optional gamma and drop path. -/
structure MSCABlockM where
  dim : ℕ
  b0 : BranchM
  b1 : BranchM
  b2 : BranchM
  attn1 : Conv2dM
  attnLNw : ℕ → ℚ
  attnLNb : ℕ → ℚ
  attn2 : Conv2dM
  channelFusion : Conv2dM
  normW : ℕ → ℚ
  normB : ℕ → ℚ
  pw1W : ℕ → ℕ → ℚ
  pw1B : ℕ → ℚ
  pw2W : ℕ → ℕ → ℚ
  pw2B : ℕ → ℚ
  gamma : Option (List ℚ)
  dropProb : ℚ

/-- The module data MSCABlock.__init__ builds (parameter values drawn from
the initialisation function `pw`, whose first argument tags the parameter
tensor; torch draws them randomly). -/
def mscaBlockOf (dim : ℕ) (p v : ℚ) (fn : ConvFn)
    (pw : ℕ → ℕ → ℕ → ℕ → ℕ → ℚ) : MSCABlockM :=
  { dim := dim
    b0 := mkBranch fn (dim / 4) (dim / 4) 3 3 1 1 (dim / 4)
      (pw 0) (fun i => pw 1 i 0 0 0)
    b1 := mkBranch fn (dim / 4) (dim / 4) 1 11 0 5 (dim / 4)
      (pw 2) (fun i => pw 3 i 0 0 0)
    b2 := mkBranch fn (dim / 4) (dim / 4) 11 1 5 0 (dim / 4)
      (pw 4) (fun i => pw 5 i 0 0 0)
    attn1 := mkConv2d dim (dim / 8) 1 1 1 1 0 0 1 (pw 6) (fun i => pw 7 i 0 0 0)
    attnLNw := fun c => pw 8 c 0 0 0
    attnLNb := fun c => pw 9 c 0 0 0
    attn2 := mkConv2d (dim / 8) dim 1 1 1 1 0 0 1 (pw 10) (fun i => pw 11 i 0 0 0)
    channelFusion := mkConv2d (dim * 2) dim 1 1 1 1 0 0 1
      (pw 12) (fun i => pw 13 i 0 0 0)
    normW := fun c => pw 14 c 0 0 0
    normB := fun c => pw 15 c 0 0 0
    pw1W := fun i j => pw 16 i j 0 0
    pw1B := fun i => pw 17 i 0 0 0
    pw2W := fun i j => pw 18 i j 0 0
    pw2B := fun i => pw 19 i 0 0 0
    gamma := mkGamma dim v
    dropProb := p }

/-- MSCABlock.__init__: the conv branches are built first (pure module
data, which cannot fail), then the two assert statements run:
`len(kernel_sizes) == 3`, and the sizes must be exactly [3, 11, 11]. -/
def mscaBlockInit (dim : ℕ) (kernelSizes : List ℕ) (p v : ℚ) (fn : ConvFn)
    (pw : ℕ → ℕ → ℕ → ℕ → ℕ → ℚ) : Except String MSCABlockM :=
  if kernelSizes.length = 3 then
    if kernelSizes.getD 0 0 = 3 ∧ kernelSizes.getD 1 0 = 11 ∧
        kernelSizes.getD 2 0 = 11 then
      .ok (mscaBlockOf dim p v fn pw)
    else .error "kernel sizes must be [3, 11, 11]"
  else .error "3 kernel configurations required"

/-- torch.chunk(x, 4, dim=1) followed by indexing x_split[0..3]: chunks of
size ceil(s1 / 4); fewer than 4 chunks makes x_split[3] an index error. -/
def chunk4E (x : Tensor4) :
    Except String (Tensor4 × Tensor4 × Tensor4 × Tensor4) :=
  let cs := (x.s1 + 3) / 4
  if 3 * cs < x.s1 then
    .ok (tslice 0 cs x, tslice cs cs x, tslice (2 * cs) cs x,
      tslice (3 * cs) (x.s1 - 3 * cs) x)
  else .error "tuple index out of range"

/-- MSCABlock.forward up to the final residual: returns the channel-fusion
output (`fused_features`) and the MLP branch about to enter drop path. -/
def mscaPre (b : MSCABlockM) (act : ActFns) (x : Tensor4) :
    Except String (Tensor4 × Tensor4) := do
  let pieces ← chunk4E x
  let c0 ← branchForwardE b.b0 pieces.1
  let c1 ← branchForwardE b.b1 pieces.2.1
  let c2 ← branchForwardE b.b2 pieces.2.2.1
  let f1 ← cat2E c0 c1
  let f2 ← cat2E f1 c2
  let fused0 ← cat2E f2 pieces.2.2.2
  let fused := tbin (fun p q => p + q) x fused0
  let a1 ← conv2dE b.attn1 (mean1 fused)
  let a2 ← layerNormLast3E b.attnLNw b.attnLNb (b.dim / 8) act.sqrtFn
    (1 / 100000) a1
  let a4 ← conv2dE b.attn2 (tmap act.gelu a2)
  let attended := tbin (fun p q => p * q) fused (tmap act.sigmoid a4)
  let ff0 ← cat2E x attended
  let ff ← conv2dE b.channelFusion ff0
  let xn ← layerNormLast1E b.normW b.normB b.dim act.sqrtFn (1 / 1000000)
    (permute0231 ff)
  let x1 ← linearE b.pw1W b.pw1B b.dim (4 * b.dim) xn
  let x3 ← linearE b.pw2W b.pw2B (4 * b.dim) b.dim (tmap act.gelu x1)
  .ok (ff, permute0312 (applyGamma b.gamma x3))

/-- MSCABlock.forward: `fused_features + self.drop_path(x)`. -/
def mscaForwardE (b : MSCABlockM) (act : ActFns) (training coin : Bool)
    (x : Tensor4) : Except String Tensor4 :=
  match mscaPre b act x with
  | .error e => .error e
  | .ok (ff, br) =>
      .ok (tbin (fun p q => p + q) ff (dropStep b.dropProb training coin br))

/-- The plain ConvNeXt block (depthwise conv, LayerNorm, MLP, gamma, drop
path). -/
structure BlockM where
  dim : ℕ
  dwconv : BranchM
  normW : ℕ → ℚ
  normB : ℕ → ℚ
  pw1W : ℕ → ℕ → ℚ
  pw1B : ℕ → ℚ
  pw2W : ℕ → ℕ → ℚ
  pw2B : ℕ → ℚ
  gamma : Option (List ℚ)
  dropProb : ℚ

/-- Block.__init__: depthwise conv_fn(dim, dim, kernel_size,
padding=kernel_size // 2, groups=dim), LayerNorm, the two Linear layers,
gamma and drop path. -/
def blockInit (dim k : ℕ) (p v : ℚ) (fn : ConvFn)
    (pw : ℕ → ℕ → ℕ → ℕ → ℕ → ℚ) : BlockM :=
  { dim := dim
    dwconv := mkBranch fn dim dim k k (k / 2) (k / 2) dim
      (pw 0) (fun i => pw 1 i 0 0 0)
    normW := fun c => pw 2 c 0 0 0
    normB := fun c => pw 3 c 0 0 0
    pw1W := fun i j => pw 4 i j 0 0
    pw1B := fun i => pw 5 i 0 0 0
    pw2W := fun i j => pw 6 i j 0 0
    pw2B := fun i => pw 7 i 0 0 0
    gamma := mkGamma dim v
    dropProb := p }

/-- Block.forward without the residual: dwconv, permute, LayerNorm, Linear,
GELU, Linear, optional gamma, permute back. -/
def blockBranchE (b : BlockM) (act : ActFns) (x : Tensor4) :
    Except String Tensor4 := do
  let y ← branchForwardE b.dwconv x
  let yn ← layerNormLast1E b.normW b.normB b.dim act.sqrtFn (1 / 1000000)
    (permute0231 y)
  let y1 ← linearE b.pw1W b.pw1B b.dim (4 * b.dim) yn
  let y3 ← linearE b.pw2W b.pw2B (4 * b.dim) b.dim (tmap act.gelu y1)
  .ok (permute0312 (applyGamma b.gamma y3))

/-- Block.forward: `input + self.drop_path(branch)`. -/
def blockForwardE (b : BlockM) (act : ActFns) (training coin : Bool)
    (x : Tensor4) : Except String Tensor4 :=
  match blockBranchE b act x with
  | .error e => .error e
  | .ok br =>
      .ok (tbin (fun p q => p + q) x (dropStep b.dropProb training coin br))

/-- torch.linspace(a, b, steps): `steps` evenly spaced points from a to b
(a single point is a itself). -/
def linspace (a b : ℚ) : ℕ → List ℚ
  | 0 => []
  | 1 => [a]
  | n + 2 => (List.range (n + 2)).map
      (fun (i : ℕ) => a + (b - a) * (i : ℚ) / ((n + 1 : ℕ) : ℚ))

/-- The stage loop's rate selection (convnext.py lines 223-233): stage i
takes `dp_rates[cur + j]` for its j-th block, and `cur` advances by the
stage depth. -/
def assignAux : List ℕ → ℕ → List ℚ → List ℚ
  | [], _, _ => []
  | d :: ds, cur, rates =>
      (List.range d).map (fun j => rates.getD (cur + j) 0) ++
        assignAux ds (cur + d) rates

/-- The per-block stochastic-depth rates a backbone with maximum rate `r`
assigns, in block order across all stages:
`dp_rates = torch.linspace(0, drop_path_rate, sum(depths))` indexed by the
stage loop. -/
def blockDropRates (depths : List ℕ) (r : ℚ) : List ℚ :=
  assignAux depths 0 (linspace 0 r depths.sum)

/-- The ConvNeXt backbone's module data. -/
structure ConvNeXtM where
  numClasses : ℕ
  stemConv : Conv2dM
  stemNormW : ℕ → ℚ
  stemNormB : ℕ → ℚ
  downs : List ((ℕ → ℚ) × (ℕ → ℚ) × Conv2dM)
  stages : List (List MSCABlockM)
  normW : ℕ → ℚ
  normB : ℕ → ℚ
  headW : ℕ → ℕ → ℚ
  headB : ℕ → ℚ

/-- The stage loop of ConvNeXt.__init__ (lines 224-233): stage i holds
depths[i] MSCABlocks of width dims[i] — each constructed with
`kernel_sizes=[3, 5, 7]`, exactly as the source writes it — at rate
`dp_rates[cur + j]`.  A dims list shorter than depths is an index error. -/
def buildStages (fn : ConvFn) (v : ℚ) (pw : ℕ → ℕ → ℕ → ℕ → ℕ → ℚ)
    (rates : List ℚ) :
    List ℕ → List ℕ → ℕ → Except String (List (List MSCABlockM))
  | [], _, _ => .ok []
  | _ :: _, [], _ => .error "list index out of range"
  | d :: ds, dim :: dims2, cur => do
      let blocks ← (List.range d).mapM
        (fun j => mscaBlockInit dim [3, 5, 7] (rates.getD (cur + j) 0) v fn pw)
      let rest ← buildStages fn v pw rates ds dims2 (cur + d)
      .ok (blocks :: rest)

/-- ConvNeXt.__init__: stem and downsample layers (pure module data), then
dp_rates, then the stage loop, then final norm and head (head weights
scaled by head_init_scale).  The `ksParam` argument mirrors the
constructor's kernel_sizes parameter: it is listified by the source but
never forwarded to the blocks. -/
def convNeXtInit (inChans numClasses : ℕ) (depths dims : List ℕ)
    (dropPathRate lsInit headScale : ℚ) (ksParam : ℕ) (fn : ConvFn)
    (pw : ℕ → ℕ → ℕ → ℕ → ℕ → ℚ) : Except String ConvNeXtM := do
  let _ := List.replicate depths.length ksParam
  let stem := mkConv2d inChans (dims.getD 0 0) 4 4 4 4 0 0 1
    (pw 100) (fun i => pw 101 i 0 0 0)
  let downs := (List.range (depths.length - 1)).map (fun i =>
    (fun c => pw (102 + i) c 0 0 0, fun c => pw (110 + i) c 0 0 0,
      mkConv2d (dims.getD i 0) (dims.getD (i + 1) 0) 2 2 2 2 0 0 1
        (pw (120 + i)) (fun c => pw (130 + i) c 0 0 0)))
  let rates := linspace 0 dropPathRate depths.sum
  let stages ← buildStages fn lsInit pw rates depths dims 0
  .ok { numClasses := numClasses
        stemConv := stem
        stemNormW := fun c => pw 140 c 0 0 0
        stemNormB := fun c => pw 141 c 0 0 0
        downs := downs
        stages := stages
        normW := fun c => pw 142 c 0 0 0
        normB := fun c => pw 143 c 0 0 0
        headW := fun i j => headScale * pw 144 i j 0 0
        headB := fun i => headScale * pw 145 i 0 0 0 }

/-- The assertion message of the factories that ship only ImageNet-1k
weights. -/
def msg22k : String := "22k pre-trained model not available"

/-- convnext_tiny_k5: build the model, then `assert not in_22k`
unconditionally, then (only if pretrained) load weights — the weight
download is network I/O, outside the embedding. -/
def convnextTinyK5 (pw : ℕ → ℕ → ℕ → ℕ → ℕ → ℚ)
    (_pretrained in22k : Bool) : Except String ConvNeXtM := do
  let m ← convNeXtInit 3 1000 [3, 3, 9, 3] [96, 192, 384, 768] 0
    (1 / 1000000) 1 5 ConvFn.std pw
  if in22k then .error msg22k else .ok m

/-- convnext_tiny_k3 (same shape, kernel_sizes=3). -/
def convnextTinyK3 (pw : ℕ → ℕ → ℕ → ℕ → ℕ → ℚ)
    (_pretrained in22k : Bool) : Except String ConvNeXtM := do
  let m ← convNeXtInit 3 1000 [3, 3, 9, 3] [96, 192, 384, 768] 0
    (1 / 1000000) 1 3 ConvFn.std pw
  if in22k then .error msg22k else .ok m

/-- convnext_tiny_k3_par1_2 (conv_fns = PartialConv2d at ratio 1/2). -/
def convnextTinyK3Par1of2 (pw : ℕ → ℕ → ℕ → ℕ → ℕ → ℚ)
    (_pretrained in22k : Bool) : Except String ConvNeXtM := do
  let m ← convNeXtInit 3 1000 [3, 3, 9, 3] [96, 192, 384, 768] 0
    (1 / 1000000) 1 3 (ConvFn.par (1 / 2)) pw
  if in22k then .error msg22k else .ok m

/-- convnext_tiny_k3_par3_8 (ratio 3/8). -/
def convnextTinyK3Par3of8 (pw : ℕ → ℕ → ℕ → ℕ → ℕ → ℚ)
    (_pretrained in22k : Bool) : Except String ConvNeXtM := do
  let m ← convNeXtInit 3 1000 [3, 3, 9, 3] [96, 192, 384, 768] 0
    (1 / 1000000) 1 3 (ConvFn.par (3 / 8)) pw
  if in22k then .error msg22k else .ok m

/-- convnext_tiny_k3_par1_4 (ratio 1/4). -/
def convnextTinyK3Par1of4 (pw : ℕ → ℕ → ℕ → ℕ → ℕ → ℚ)
    (_pretrained in22k : Bool) : Except String ConvNeXtM := do
  let m ← convNeXtInit 3 1000 [3, 3, 9, 3] [96, 192, 384, 768] 0
    (1 / 1000000) 1 3 (ConvFn.par (1 / 4)) pw
  if in22k then .error msg22k else .ok m

/-- convnext_tiny_k3_par1_8 (ratio 1/8). -/
def convnextTinyK3Par1of8 (pw : ℕ → ℕ → ℕ → ℕ → ℕ → ℚ)
    (_pretrained in22k : Bool) : Except String ConvNeXtM := do
  let m ← convNeXtInit 3 1000 [3, 3, 9, 3] [96, 192, 384, 768] 0
    (1 / 1000000) 1 3 (ConvFn.par (1 / 8)) pw
  if in22k then .error msg22k else .ok m

/-- convnext_tiny_k3_par1_16 (ratio 1/16). -/
def convnextTinyK3Par1of16 (pw : ℕ → ℕ → ℕ → ℕ → ℕ → ℚ)
    (_pretrained in22k : Bool) : Except String ConvNeXtM := do
  let m ← convNeXtInit 3 1000 [3, 3, 9, 3] [96, 192, 384, 768] 0
    (1 / 1000000) 1 3 (ConvFn.par (1 / 16)) pw
  if in22k then .error msg22k else .ok m

/-- Zero initialisation function and identity activations, used by the
concrete evaluations below. -/
def pw0 : ℕ → ℕ → ℕ → ℕ → ℕ → ℚ := fun _ _ _ _ _ => 0

/-- Identity stand-ins for the abstract activations. -/
def act0 : ActFns := { gelu := id, sigmoid := id, sqrtFn := id }

/-- Equality of tensors: equal extents and equal values at every index
inside them. -/
def teq (a b : Tensor4) : Prop :=
  a.s0 = b.s0 ∧ a.s1 = b.s1 ∧ a.s2 = b.s2 ∧ a.s3 = b.s3 ∧
    ∀ n c h v, n < a.s0 → c < a.s1 → h < a.s2 → v < a.s3 →
      a.data n c h v = b.data n c h v

/-- Mean over the channel axis at one (batch, spatial) location. -/
def chanMean (x : Tensor4) (n h v : ℕ) : ℚ :=
  (∑ i ∈ Finset.range x.s1, x.data n i h v) / (x.s1 : ℚ)

/-- Biased variance over the channel axis at one (batch, spatial)
location. -/
def chanVar (x : Tensor4) (n h v : ℕ) : ℚ :=
  (∑ i ∈ Finset.range x.s1, (x.data n i h v - chanMean x n h v) ^ 2) /
    (x.s1 : ℚ)

/-- A concrete [1, 8, 1, 1] input (valid width for an MSCA block: 8 is
divisible by 4 and by 8). -/
def xC2 : Tensor4 := { s0 := 1, s1 := 8, s2 := 1, s3 := 1, data := fun _ _ _ _ => 1 }

/-- The rational 1 written through the structure constructor (the rational
arithmetic of this Mathlib does not reduce in the kernel; the constructor
form does). -/
def rOne : ℚ := ⟨1, 1, by decide, by decide⟩

/-- The rational 1/2, in constructor form. -/
def rHalf : ℚ := ⟨1, 2, by decide, by decide⟩

/-- A concrete PartialConv2d(1, 1, kernel_size=2, conv_ratio=1.0): its
inner conv shrinks the spatial extents by one. -/
def pcK2 : PartialConv2d :=
  pconvInit 1 1 2 2 1 1 0 0 1 1 1 rOne (pw0 0) (fun _ => 0)

/-- A concrete [1, 1, 2, 2] input for `pcK2`. -/
def xC5 : Tensor4 := { s0 := 1, s1 := 1, s2 := 2, s3 := 2, data := fun _ _ _ _ => 1 }

/-- A concrete PartialConv2d(4, 4, kernel_size=1, conv_ratio=1/2). -/
def mC4 : PartialConv2d :=
  pconvInit 4 4 1 1 1 1 0 0 1 1 1 rHalf (pw0 0) (fun _ => 0)

/-- A concrete [1, 4, 1, 1] input for `mC4`. -/
def xC4 : Tensor4 := { s0 := 1, s1 := 4, s2 := 1, s3 := 1, data := fun _ _ _ _ => 1 }

/-- The value mC4's forward returns on xC4. -/
def yC4 : Tensor4 :=
  cat2 (tslice 0 mC4.splitA xC4)
    (convApply mC4.conv (tslice mC4.splitA mC4.splitB xC4))

/-- A concrete [1, 1, 1, 1] input. -/
def x1111 : Tensor4 := { s0 := 1, s1 := 1, s2 := 1, s3 := 1, data := fun _ _ _ _ => 1 }

/-- A concrete [1, 4, 1, 1] tensor with channel values 0, 1, 2, 3. -/
def xC6 : Tensor4 := { s0 := 1, s1 := 4, s2 := 1, s3 := 1, data := fun _ c _ _ => (c : ℚ) }

/-- C1: the claim says building ConvNeXt succeeds for every valid
configuration; in the code it never does.  At the canonical valid
configuration (depths [3,3,9,3], dims [96,192,384,768], equal lengths,
blocks present), construction raises: the stage loop passes
kernel_sizes=[3,5,7] to MSCABlock, whose assert demands [3,11,11].  The
forward-shape half of the claim is therefore unreachable. -/
theorem convnext_build_raises_kernel_assert :
    convNeXtInit 3 1000 [3, 3, 9, 3] [96, 192, 384, 768] 0 (1 / 1000000) 1 7
      ConvFn.std pw0 = .error "kernel sizes must be [3, 11, 11]" := rfl

/-- C2: the claim says MSCABlock.forward returns an input-shaped tensor for
every valid width; in the code it always raises.  At dim = 8 (divisible by
4 and 8) construction with the accepted kernel triplet succeeds, but
forward fails at the attention Sequential: its first conv expects dim
input channels yet receives the 1-channel map `fused.mean(dim=1,
keepdim=True)`. -/
theorem msca_forward_raises_on_valid_input :
    mscaBlockInit 8 [3, 11, 11] 0 (1 / 1000000) ConvFn.std pw0 =
      .ok (mscaBlockOf 8 0 (1 / 1000000) ConvFn.std pw0) ∧
    mscaForwardE (mscaBlockOf 8 0 (1 / 1000000) ConvFn.std pw0) act0 false
      false xC2 =
      .error "input channel count does not match conv in_channels" :=
  ⟨rfl, rfl⟩

/-- C10: the claim says the 1k-only factories evaluate `assert not in_22k`
unconditionally after model construction; in the code that assert is never
reached, because model construction itself raises the MSCABlock
kernel-size assertion first.  Each factory called with pretrained=False,
in_22k=True fails with the construction message, not the 22k message. -/
theorem factories_in22k_raise_construction_error :
    convnextTinyK5 pw0 false true = .error "kernel sizes must be [3, 11, 11]" ∧
    convnextTinyK3 pw0 false true = .error "kernel sizes must be [3, 11, 11]" ∧
    convnextTinyK3Par1of2 pw0 false true =
      .error "kernel sizes must be [3, 11, 11]" ∧
    convnextTinyK3Par3of8 pw0 false true =
      .error "kernel sizes must be [3, 11, 11]" ∧
    convnextTinyK3Par1of4 pw0 false true =
      .error "kernel sizes must be [3, 11, 11]" ∧
    convnextTinyK3Par1of8 pw0 false true =
      .error "kernel sizes must be [3, 11, 11]" ∧
    convnextTinyK3Par1of16 pw0 false true =
      .error "kernel sizes must be [3, 11, 11]" ∧
    "kernel sizes must be [3, 11, 11]" ≠ msg22k :=
  ⟨rfl, rfl, rfl, rfl, rfl, rfl, rfl, by decide⟩

/-- C5 counterexample: with conv_ratio 1.0 and identical kernel parameters
(kernel 2, stride 1, no padding), PartialConv2d.forward raises on a
[1,1,2,2] input — the empty identity slice keeps spatial extents 2x2 while
the convolved result is 1x1, and torch.cat rejects the mismatch — whereas
the standard convolution over the full channel set succeeds.  So the two
are not the same function on every input. -/
theorem pconv_ratio_one_not_std_conv :
    exErr (pconvForwardE pcK2 xC5) = true ∧
    exErr (conv2dE pcK2.conv xC5) = false :=
  ⟨by decide, by decide⟩

/-- C3: MSCABlock construction rejects every kernel-size list other than
exactly [3, 11, 11] (the length-3 assert, then the per-entry assert), and
accepts [3, 11, 11]; the validation happens in the constructor, before any
forward tensor computation exists. -/
theorem msca_kernel_sizes_contract (dim : ℕ) (ks : List ℕ) (p v : ℚ)
    (fn : ConvFn) (pw : ℕ → ℕ → ℕ → ℕ → ℕ → ℚ) (h : ks ≠ [3, 11, 11]) :
    exErr (mscaBlockInit dim ks p v fn pw) = true ∧
    exErr (mscaBlockInit dim [3, 11, 11] p v fn pw) = false := by
  refine ⟨?_, rfl⟩
  rcases ks with _ | ⟨a, _ | ⟨b, _ | ⟨c, _ | ⟨d, tl⟩⟩⟩⟩
  · rfl
  · rfl
  · rfl
  · have hne : ¬(a = 3 ∧ b = 11 ∧ c = 11) := by
      rintro ⟨rfl, rfl, rfl⟩; exact h rfl
    simp [mscaBlockInit, hne, exErr]
  · simp [mscaBlockInit, exErr]

/-- C3 witness: [3, 7, 11] is rejected, [3, 11, 11] accepted. -/
theorem msca_kernel_sizes_contract_witness :
    exErr (mscaBlockInit 96 [3, 7, 11] 0 (1 / 1000000) ConvFn.std pw0) = true ∧
    exErr (mscaBlockInit 96 [3, 11, 11] 0 (1 / 1000000) ConvFn.std pw0) = false :=
  msca_kernel_sizes_contract 96 [3, 7, 11] 0 (1 / 1000000) ConvFn.std pw0
    (by decide)

/-- The stage loop reads rate `cur + k` for the k-th block overall: the
per-stage offsets add up, so the flattened assignment is the rate list
itself, shifted by `cur`. -/
theorem assignAux_getD (ds : List ℕ) (cur : ℕ) (rates : List ℚ) (k : ℕ)
    (hk : k < ds.sum) :
    (assignAux ds cur rates).getD k 0 = rates.getD (cur + k) 0 := by
  induction ds generalizing cur k with
  | nil => simp at hk
  | cons d ds ih =>
    by_cases hkd : k < d
    · rw [assignAux, List.getD_append _ _ _ _ (by simpa using hkd),
        List.getD_eq_getElem?_getD, List.getElem?_map, List.getElem?_range hkd]
      rfl
    · rw [assignAux, List.getD_append_right _ _ _ _ (by simpa using hkd)]
      have hks : k - (List.range d).length < ds.sum := by
        simp only [List.sum_cons] at hk
        simp only [List.length_range]
        omega
      rw [List.length_map, ih (cur + d) (k - (List.range d).length)
        (by simpa using hks)]
      congr 1
      simp only [List.length_range]
      omega

/-- torch.linspace(0, r, T) holds r * k / (T - 1) at position k (for a
single step the single point is 0, matching the formula's 0 numerator). -/
theorem linspace_getD (r : ℚ) (T k : ℕ) (hk : k < T) :
    (linspace 0 r T).getD k 0 = r * (k : ℚ) / ((T : ℚ) - 1) := by
  rcases T with _ | _ | n
  · simp at hk
  · have hk0 : k = 0 := by omega
    subst hk0
    simp [linspace]
  · rw [linspace, List.getD_eq_getElem?_getD, List.getElem?_map,
      List.getElem?_range hk]
    have hcast : ((n + 1 : ℕ) : ℚ) = ((n + 2 : ℕ) : ℚ) - 1 := by
      push_cast; ring
    simp [hcast]

/-- C7: with maximum rate r, the backbone's per-block drop rates in block
order across all stages (not restarted per stage) are the linear
interpolation r * k / (sum(depths) - 1) over the total block count. -/
theorem drop_path_rates_linear (depths : List ℕ) (r : ℚ) (k : ℕ)
    (hk : k < depths.sum) :
    (blockDropRates depths r).getD k 0 =
      r * (k : ℚ) / ((depths.sum : ℚ) - 1) := by
  rw [blockDropRates, assignAux_getD depths 0 _ k hk, Nat.zero_add]
  exact linspace_getD r depths.sum k hk

/-- C7 witness: block 5 of the canonical depths [3, 3, 9, 3] (18 blocks)
gets rate r * 5 / 17. -/
theorem drop_path_rates_linear_witness :
    (blockDropRates [3, 3, 9, 3] (1 / 2)).getD 5 0 =
      1 / 2 * ((5 : ℕ) : ℚ) / ((([3, 3, 9, 3] : List ℕ).sum : ℚ) - 1) :=
  drop_path_rates_linear [3, 3, 9, 3] (1 / 2) 5 (by decide)

/-- In inference mode the stochastic-depth step is the identity, whatever
the coin: DropPath returns its input when not training, and the
drop_path=0 branch is nn.Identity. -/
theorem dropStep_inference (p : ℚ) (c : Bool) (t : Tensor4) :
    dropStep p false c t = t := by
  unfold dropStep dropPathF
  split <;> rfl

/-- C8: in inference mode both block types are deterministic — the forward
result does not depend on the stochastic-depth coin — and the
stochastic-depth branch is the identity: the forward equals the residual
base plus the unscaled MLP branch. -/
theorem block_inference_deterministic (b : BlockM) (mb : MSCABlockM)
    (act : ActFns) (c1 c2 : Bool) (x : Tensor4) :
    blockForwardE b act false c1 x = blockForwardE b act false c2 x ∧
    blockForwardE b act false c1 x =
      Except.map (fun br => tbin (fun p q => p + q) x br) (blockBranchE b act x) ∧
    mscaForwardE mb act false c1 x = mscaForwardE mb act false c2 x ∧
    mscaForwardE mb act false c1 x =
      Except.map (fun pr => tbin (fun p q => p + q) pr.1 pr.2)
        (mscaPre mb act x) := by
  refine ⟨?_, ?_, ?_, ?_⟩
  · unfold blockForwardE
    cases blockBranchE b act x <;> simp [dropStep_inference]
  · unfold blockForwardE
    cases blockBranchE b act x <;> simp [Except.map, dropStep_inference]
  · unfold mscaForwardE
    cases hpre : mscaPre mb act x with
    | error e => rfl
    | ok pr => simp [dropStep_inference]
  · unfold mscaForwardE
    cases hpre : mscaPre mb act x with
    | error e => rfl
    | ok pr => simp [Except.map, dropStep_inference]

/-- C9: in both block types the gamma parameter exists exactly when
layer_scale_init_value is positive, it is then the init value times the
all-ones length-dim vector, and the forward gamma step multiplies the
MLP-branch output by it elementwise (and is the identity when gamma is
absent). -/
theorem gamma_presence_iff (dim k : ℕ) (p v : ℚ) (fn : ConvFn)
    (pw : ℕ → ℕ → ℕ → ℕ → ℕ → ℚ) (y : Tensor4) :
    (blockInit dim k p v fn pw).gamma =
      (if 0 < v then some (List.replicate dim v) else none) ∧
    Except.map MSCABlockM.gamma (mscaBlockInit dim [3, 11, 11] p v fn pw) =
      .ok (if 0 < v then some (List.replicate dim v) else none) ∧
    applyGamma (blockInit dim k p v fn pw).gamma y =
      (if 0 < v then mulVecLast (List.replicate dim v) y else y) := by
  have hrep : (List.replicate dim (1 : ℚ)).map (fun o => v * o) =
      List.replicate dim v := by
    simp [List.map_replicate]
  by_cases hv : 0 < v <;>
    simp [blockInit, mscaBlockInit, mscaBlockOf, mkGamma, applyGamma,
      Except.map, hrep, hv]

/-- For a ratio at most 1, `int(n * ratio)` is at most n. -/
theorem ratioFloor_le (n : ℕ) (r : ℚ) (hr0 : 0 < r) (hr1 : r ≤ 1) :
    ratioFloor n r ≤ n := by
  unfold ratioFloor
  have hden : (0 : ℤ) < (r.den : ℤ) := by exact_mod_cast r.pos
  have hnum : (0 : ℤ) < r.num := Rat.num_pos.mpr hr0
  have hnumle : r.num ≤ (r.den : ℤ) := by
    have h := Rat.le_def.mp hr1
    simpa using h
  have hnn : (0 : ℤ) ≤ (n : ℤ) * r.num := by positivity
  rw [Int.tdiv_eq_ediv hnn (by positivity)]
  rw [Int.toNat_le]
  calc (n : ℤ) * r.num / (r.den : ℤ)
      ≤ (n : ℤ) * (r.den : ℤ) / (r.den : ℤ) := by
        apply Int.ediv_le_ediv hden
        exact mul_le_mul_of_nonneg_left hnumle (by positivity)
    _ = (n : ℤ) := Int.mul_ediv_cancel _ (by omega)

/-- C4: PartialConv2d output is the concatenation, along the channel axis,
of the untouched leading C - int(C*r) input channels (bit-exact) followed
by the grouped convolution of the trailing int(C*r) channels; with
in_channels = out_channels the channel count is preserved. -/
theorem pconv_frame_effect (C kH kW sH sW pH pW dH dW g : ℕ) (r : ℚ)
    (wf : ℕ → ℕ → ℕ → ℕ → ℚ) (bf : ℕ → ℚ) (x y : Tensor4)
    (hr0 : 0 < r) (hr1 : r ≤ 1) (hx : x.s1 = C)
    (hok : pconvForwardE (pconvInit C C kH kW sH sW pH pW dH dW g r wf bf) x
      = .ok y) :
    let m := pconvInit C C kH kW sH sW pH pW dH dW g r wf bf
    m.splitA = C - ratioFloor C r ∧
    m.splitB = ratioFloor C r ∧
    y.s1 = C ∧
    (∀ n c h v, c < m.splitA → y.data n c h v = x.data n c h v) ∧
    (∀ n c h v, y.data n (m.splitA + c) h v =
      (convApply m.conv (tslice m.splitA m.splitB x)).data n c h v) := by
  intro m
  have hle : ratioFloor C r ≤ C := ratioFloor_le C r hr0 hr1
  unfold pconvForwardE at hok
  split at hok
  case isFalse => exact absurd hok (by simp)
  case isTrue hsum =>
    split at hok
    next e heq => exact absurd hok (by simp)
    next z heq =>
      unfold cat2E at hok
      split at hok
      case isFalse => exact absurd hok (by simp)
      case isTrue hcat =>
        have hy : y = cat2 (tslice 0 m.splitA x) z := by
          injection hok with h
          exact h.symm
        have hz : z = convApply m.conv (tslice m.splitA m.splitB x) := by
          unfold conv2dE at heq
          split at heq
          · split at heq
            · injection heq with h
              exact h.symm
            · exact absurd heq (by simp)
          · exact absurd heq (by simp)
        subst hy
        refine ⟨rfl, rfl, ?_, ?_, ?_⟩
        · show m.splitA + z.s1 = C
          rw [hz]
          show m.splitA + m.conv.outC = C
          show C - ratioFloor C r + ratioFloor C r = C
          omega
        · intro n c h v hc
          show (if c < m.splitA then x.data n (0 + c) h v
            else z.data n (c - m.splitA) h v) = x.data n c h v
          rw [if_pos hc, Nat.zero_add]
        · intro n c h v
          show (if m.splitA + c < m.splitA then x.data n (0 + (m.splitA + c)) h v
            else z.data n (m.splitA + c - m.splitA) h v) = _
          rw [if_neg (by omega), Nat.add_sub_cancel_left, hz]

/-- C4 witness: PartialConv2d(4, 4, kernel 1, ratio 1/2) on a [1,4,1,1]
input splits as 2 + 2 and keeps the leading two channels bit-exact. -/
theorem pconv_frame_effect_witness :
    mC4.splitA = 4 - ratioFloor 4 rHalf ∧
    mC4.splitB = ratioFloor 4 rHalf ∧
    yC4.s1 = 4 ∧
    (∀ n c h v, c < mC4.splitA → yC4.data n c h v = xC4.data n c h v) ∧
    (∀ n c h v, yC4.data n (mC4.splitA + c) h v =
      (convApply mC4.conv (tslice mC4.splitA mC4.splitB xC4)).data n c h v) :=
  pconv_frame_effect 4 1 1 1 1 0 0 1 1 1 rHalf (pw0 0) (fun _ => 0) xC4 yC4
    (by decide) (by decide) rfl rfl

/-- A convolution whose input carries the right channel count and whose
output extents are positive succeeds. -/
theorem conv2dE_ok (m : Conv2dM) (x : Tensor4) (h1 : x.s1 = m.inC)
    (h2 : m.dH * (m.kH - 1) + 1 ≤ x.s2 + 2 * m.pH)
    (h3 : m.dW * (m.kW - 1) + 1 ≤ x.s3 + 2 * m.pW) :
    conv2dE m x = .ok (convApply m x) := by
  unfold conv2dE
  rw [if_pos h1, if_pos ⟨h2, h3⟩]

/-- A concatenation of tensors agreeing outside the channel axis
succeeds. -/
theorem cat2E_ok (a b : Tensor4) (h : a.s0 = b.s0 ∧ a.s2 = b.s2 ∧ a.s3 = b.s3) :
    cat2E a b = .ok (cat2 a b) := by
  unfold cat2E
  rw [if_pos h]

/-- With ratio 1, `int(C * 1)` is C. -/
theorem ratioFloor_one (C : ℕ) : ratioFloor C 1 = C := by
  unfold ratioFloor
  rw [Rat.num_one, Rat.den_one]
  simp

/-- C5 (amended): with conv_ratio 1.0 the identity slice is empty and
PartialConv2d.forward equals the standard convolution over the full
channel set — provided the convolution preserves the spatial extents (as
every use in this repository does); otherwise the final torch.cat rejects
the empty identity slice's unchanged spatial extents and forward raises
while the standard convolution succeeds. -/
theorem pconv_ratio_one_equiv (C kH kW sH sW pH pW dH dW g : ℕ)
    (wf : ℕ → ℕ → ℕ → ℕ → ℚ) (bf : ℕ → ℚ) (x : Tensor4) (hx : x.s1 = C)
    (hH : convOutDim x.s2 kH sH pH dH = x.s2)
    (hW : convOutDim x.s3 kW sW pW dW = x.s3)
    (hvH : dH * (kH - 1) + 1 ≤ x.s2 + 2 * pH)
    (hvW : dW * (kW - 1) + 1 ≤ x.s3 + 2 * pW) :
    ∃ y z,
      pconvForwardE (pconvInit C C kH kW sH sW pH pW dH dW g 1 wf bf) x =
        .ok y ∧
      conv2dE (pconvInit C C kH kW sH sW pH pW dH dW g 1 wf bf).conv x =
        .ok z ∧
      teq y z := by
  set m := pconvInit C C kH kW sH sW pH pW dH dW g 1 wf bf with hm
  have hA : m.splitA = 0 := by
    show C - ratioFloor C 1 = 0
    rw [ratioFloor_one]
    omega
  have hB : m.splitB = C := ratioFloor_one C
  have hinC : m.conv.inC = C := ratioFloor_one C
  have hout : m.conv.outC = C := ratioFloor_one C
  have hcv : conv2dE m.conv (tslice m.splitA m.splitB x) =
      .ok (convApply m.conv (tslice m.splitA m.splitB x)) :=
    conv2dE_ok _ _ (by simpa [tslice, hinC] using hB) hvH hvW
  have hfwd : pconvForwardE m x =
      .ok (cat2 (tslice 0 m.splitA x)
        (convApply m.conv (tslice m.splitA m.splitB x))) := by
    unfold pconvForwardE
    rw [if_pos (by rw [hx, hA, hB]; omega), hcv]
    exact cat2E_ok _ _ ⟨rfl, hH.symm, hW.symm⟩
  have hstd : conv2dE m.conv x = .ok (convApply m.conv x) :=
    conv2dE_ok _ _ (hx.trans hinC.symm) hvH hvW
  refine ⟨_, _, hfwd, hstd, ?_, ?_, ?_, ?_, ?_⟩
  · rfl
  · show m.splitA + m.conv.outC = m.conv.outC
    rw [hA]
    omega
  · show x.s2 = convOutDim x.s2 m.conv.kH m.conv.sH m.conv.pH m.conv.dH
    exact hH.symm
  · show x.s3 = convOutDim x.s3 m.conv.kW m.conv.sW m.conv.pW m.conv.dW
    exact hW.symm
  · intro n c h v hn hc hh hv
    show (if c < m.splitA then x.data n (0 + c) h v
      else (convApply m.conv (tslice m.splitA m.splitB x)).data n
        (c - m.splitA) h v) = (convApply m.conv x).data n c h v
    rw [if_neg (by omega), hA, hB, Nat.sub_zero]
    show m.conv.bias c + _ = m.conv.bias c + _
    congr 1
    refine Finset.sum_congr rfl fun a _ => ?_
    refine Finset.sum_congr rfl fun i _ => ?_
    refine Finset.sum_congr rfl fun j _ => ?_
    congr 1
    unfold padGet tslice
    simp [Nat.zero_add]

/-- C5 amended witness: ratio 1 with a 1x1 convolution on a [1,1,1,1]
input. -/
theorem pconv_ratio_one_equiv_witness :
    ∃ y z,
      pconvForwardE (pconvInit 1 1 1 1 1 1 0 0 1 1 1 1 (pw0 0) (fun _ => 0))
        x1111 = .ok y ∧
      conv2dE (pconvInit 1 1 1 1 1 1 0 0 1 1 1 1 (pw0 0) (fun _ => 0)).conv
        x1111 = .ok z ∧
      teq y z :=
  pconv_ratio_one_equiv 1 1 1 1 1 0 0 1 1 1 (pw0 0) (fun _ => 0) x1111
    rfl (by decide) (by decide) (by decide) (by decide)

/-- Reading a non-broadcast axis keeps the index. -/
theorem bIdx_lt {s i : ℕ} (h : i < s) : bIdx s i = i := by
  unfold bIdx
  split
  · omega
  · rfl

/-- Reading a broadcast (extent-1) axis gives index 0. -/
theorem bIdx_one (i : ℕ) : bIdx 1 i = 0 := rfl

/-- C6: the channels_first LayerNorm keeps the input shape, and at every
index its value is weight * (x - mean) / sqrt(var + eps) + bias, with mean
and biased variance taken over the channel axis at that (batch, spatial)
location. -/
theorem layernorm_channels_first_formula (C : ℕ) (w b : ℕ → ℚ) (eps : ℚ)
    (sq : ℚ → ℚ) (x : Tensor4) (n c h v : ℕ)
    (hC : x.s1 = C) (h0 : 1 ≤ x.s0) (h1 : 1 ≤ C) (h2 : 1 ≤ x.s2)
    (h3 : 1 ≤ x.s3) (hn : n < x.s0) (hc : c < C) (hh : h < x.s2)
    (hv : v < x.s3) :
    ((layerNormCF C w b eps sq x).s0 = x.s0 ∧
      (layerNormCF C w b eps sq x).s1 = x.s1 ∧
      (layerNormCF C w b eps sq x).s2 = x.s2 ∧
      (layerNormCF C w b eps sq x).s3 = x.s3) ∧
    (layerNormCF C w b eps sq x).data n c h v =
      w c * ((x.data n c h v - chanMean x n h v) /
        sq (chanVar x n h v + eps)) + b c := by
  constructor
  · refine ⟨?_, ?_, ?_, ?_⟩ <;>
      · simp [layerNormCF, tbin, tmap, mean1, hC]
        omega
  · simp only [layerNormCF, tbin, tmap, mean1, hC]
    have m0 : 1 ⊔ x.s0 = x.s0 := by omega
    have m2 : 1 ⊔ x.s2 = x.s2 := by omega
    have m3 : 1 ⊔ x.s3 = x.s3 := by omega
    have mC1 : C ⊔ 1 = C := by omega
    simp only [Nat.max_self, m0, m2, m3, mC1]
    simp only [bIdx_lt hn, bIdx_lt hc, bIdx_lt hh, bIdx_lt hv]
    have hsum : ∀ M : ℚ,
        (∑ i ∈ Finset.range C, (x.data n (bIdx C i) h v - M) ^ 2) =
          ∑ i ∈ Finset.range C, (x.data n i h v - M) ^ 2 := fun M =>
      Finset.sum_congr rfl fun i hi => by
        rw [bIdx_lt (Finset.mem_range.mp hi)]
    rw [hsum]
    simp only [chanMean, chanVar, hC]

/-- C6 witness: a [1,4,1,1] input with channel values 0..3, unit weight and
zero bias, at channel 1. -/
theorem layernorm_channels_first_formula_witness :
    ((layerNormCF 4 (fun _ => (1 : ℚ)) (fun _ => (0 : ℚ)) (1 / 1000000) id
        xC6).s0 = xC6.s0 ∧
      (layerNormCF 4 (fun _ => (1 : ℚ)) (fun _ => (0 : ℚ)) (1 / 1000000) id
        xC6).s1 = xC6.s1 ∧
      (layerNormCF 4 (fun _ => (1 : ℚ)) (fun _ => (0 : ℚ)) (1 / 1000000) id
        xC6).s2 = xC6.s2 ∧
      (layerNormCF 4 (fun _ => (1 : ℚ)) (fun _ => (0 : ℚ)) (1 / 1000000) id
        xC6).s3 = xC6.s3) ∧
    (layerNormCF 4 (fun _ => (1 : ℚ)) (fun _ => (0 : ℚ)) (1 / 1000000) id
        xC6).data 0 1 0 0 =
      1 * ((xC6.data 0 1 0 0 - chanMean xC6 0 0 0) /
        id (chanVar xC6 0 0 0 + 1 / 1000000)) + 0 :=
  layernorm_channels_first_formula 4 (fun _ => 1) (fun _ => 0) (1 / 1000000)
    id xC6 0 1 0 0 rfl (by decide) (by decide) (by decide) (by decide)
    (by decide) (by decide) (by decide) (by decide)
